import Mathlib

/-!
Verification of the ORBET cloud panel core (`app.py`): path sanitization and
resolution, owner-scoped listing, category classification, pagination, and the
vehicle-ticket store (save / lookup / delete, daily sequence numbers).

The Python source is shallowly embedded: the filesystem is a finite list of
file entries, the sqlite table is a list of rows, and every handler becomes a
pure function returning `Except Err` for the HTTP error outcomes.  Wall-clock
values (file modification times, `datetime.now()`) are passed in explicitly.
-/

namespace Orbet

/-- Error outcomes surfaced by the handlers (HTTP status classes in the source:
401/403 `forbidden`, 404 `notFound`, 403 on path escape `pathEscape`,
422 FastAPI query validation `validation`). -/
inductive Err where
  | forbidden
  | notFound
  | pathEscape
  | validation
deriving DecidableEq, Repr

/-! ## String utilities (`secure_name`, lower/upper casing, substring test) -/

/-- The allow-list from `secure_name`:
`"abcdefghijklmnopqrstuvwxyzABCDEFGHIJKLMNOPQRSTUVWXYZ0123456789._-"`. -/
def keepChars : List Char :=
  "abcdefghijklmnopqrstuvwxyzABCDEFGHIJKLMNOPQRSTUVWXYZ0123456789._-".data

/-- `secure_name(name)`: keep allow-listed characters, replace every other
character with `'_'` (source: `"".join(c if c in keep else "_" for c in name)`). -/
def secure_name (s : String) : String :=
  ⟨s.data.map (fun c => if c ∈ keepChars then c else '_')⟩

/-- ASCII lower-casing, modelling Python `str.lower()` on the identifiers the
app handles. -/
def strLower (s : String) : String := ⟨s.data.map Char.toLower⟩

/-- ASCII upper-casing, modelling Python `str.upper()`. -/
def strUpper (s : String) : String := ⟨s.data.map Char.toUpper⟩

/-- Python `needle in hay` on strings, as a scan over the character list. -/
def containsSub (needle : List Char) : List Char → Bool
  | [] => needle.isEmpty
  | c :: t => needle.isPrefixOf (c :: t) || containsSub needle t

/-! ## Category classifier (`_category_from_name`) -/

/-- `_category_from_name(name)`: case-insensitive substring matching, first
group wins (source lines 86–91). -/
def _category_from_name (name : String) : String :=
  let n := strLower name
  if containsSub "persona".data n.data then "PERSONA"
  else if ["auto", "car", "vehic", "truck", "bus", "camion"].any
      (fun x => containsSub x.data n.data) then "AUTO"
  else if ["animal", "dog", "cat", "bird"].any
      (fun x => containsSub x.data n.data) then "ANIMAL"
  else "OTROS"

/-- The spec's presentation of the classifier: an explicit ordered list of
keyword groups, scanned for the first group with a matching keyword,
defaulting to `OTROS`. -/
def specGroups : List (List String × String) :=
  [(["persona"], "PERSONA"),
   (["auto", "car", "vehic", "truck", "bus", "camion"], "AUTO"),
   (["animal", "dog", "cat", "bird"], "ANIMAL")]

/-- Spec-side classifier: first matching group in `specGroups` wins. -/
def classifySpec (name : String) : String :=
  let n := strLower name
  match specGroups.find? (fun g => g.1.any (fun kw => containsSub kw.data n.data)) with
  | some g => g.2
  | none => "OTROS"

/-! ## Path resolution (`_safe_path`)

Filesystem paths are modelled as their component lists below an absolute
root.  `pathlib` drops empty and `"."` segments when joining; `Path.resolve()`
then eliminates `".."` segments textually (symbolic links are out of scope of
the model). -/

/-- Joining path segments the way `pathlib` does: empty and `"."` segments
disappear at construction time. -/
def joinParts : List String → List String
  | [] => []
  | s :: rest => if s = "" ∨ s = "." then joinParts rest else s :: joinParts rest

/-- `Path.resolve()` on an absolute path given by its component list: `"."` is
dropped, `".."` removes the previous component (staying put at the root). -/
def resolveComps (acc : List String) : List String → List String
  | [] => acc
  | c :: rest =>
    if c = "." then resolveComps acc rest
    else if c = ".." then resolveComps acc.dropLast rest
    else resolveComps (acc ++ [c]) rest

/-- `str(path)` for an absolute path: each component preceded by `"/"`. -/
def renderPath (comps : List String) : String :=
  comps.foldl (fun acc c => acc ++ "/" ++ c) ""

/-- Python `s.startswith(t)` on code points. -/
def strStartsWith (s t : String) : Bool :=
  t.data.isPrefixOf s.data

/-- A component of the resolved `DATA_DIR`: nonempty, not a dot entry, and
slash-free — guaranteed for the components of a `Path.resolve()` output. -/
def goodComp (s : String) : Prop :=
  s ≠ "" ∧ s ≠ "." ∧ s ≠ ".." ∧ '/' ∉ s.data

instance (s : String) : Decidable (goodComp s) := by
  unfold goodComp
  infer_instance

/-- `_safe_path(owner, kind, day, name)` (source lines 399–411): reject bad
kinds, sanitize each caller segment, join under `root/owner/kind/day/name`,
resolve, and reject the result unless its string form starts with the string
form of the resolved `root/owner`.  The trailing existence / is-file check
only inspects the filesystem and cannot alter the returned path, so it is
elided; `root` stands for the already-resolved `DATA_DIR`. -/
def _safe_path (root : List String) (owner kind day name : String) :
    Except Err (List String) :=
  if kind = "capturas" ∨ kind = "tickets" then
    let o := secure_name owner
    let d := secure_name day
    let n := secure_name name
    let path := resolveComps [] (root ++ joinParts [o, kind, d, n])
    let tgt := resolveComps [] (root ++ joinParts [o])
    if strStartsWith (renderPath path) (renderPath tgt) then .ok path
    else .error .pathEscape
  else .error .notFound

/-! ## The day-partitioned store and the item enumerator -/

/-- A leaf file on disk at `DATA_DIR/owner/kind/day/name`, together with the
date and time-of-day parts of the modification time that `os.stat` reports. -/
structure FSFile where
  owner : String
  kind : String
  day : String
  name : String
  mtimeDate : String
  mtimeTime : String
deriving DecidableEq, Repr

/-- The filesystem below `DATA_DIR`, as a finite set of leaf files. -/
abbrev FS := List FSFile

/-- Days per month, with the Gregorian leap rule (as `datetime` validates). -/
def daysInMonth (y m : Nat) : Nat :=
  if m = 2 then (if y % 4 = 0 ∧ (y % 100 ≠ 0 ∨ y % 400 = 0) then 29 else 28)
  else if m = 4 ∨ m = 6 ∨ m = 9 ∨ m = 11 then 30
  else 31

def allDigits (l : List Char) : Bool := l.all (fun c => '0' ≤ c && c ≤ '9')

def digitsToNat (l : List Char) : Nat :=
  l.foldl (fun acc c => acc * 10 + (c.toNat - '0'.toNat)) 0

/-- `parse_ymd` (source lines 83–84): `datetime.strptime(s, "%Y-%m-%d")`,
which accepts 1–2 digit month/day fields and calendar-validates the result. -/
def parse_ymd (s : String) : Option (Nat × Nat × Nat) :=
  match s.split (· = '-') with
  | [ys, ms, ds] =>
    if allDigits ys.data ∧ allDigits ms.data ∧ allDigits ds.data ∧
        ys.data ≠ [] ∧ ms.data ≠ [] ∧ ds.data ≠ [] ∧
        ys.data.length ≤ 4 ∧ ms.data.length ≤ 2 ∧ ds.data.length ≤ 2 then
      let y := digitsToNat ys.data
      let m := digitsToNat ms.data
      let d := digitsToNat ds.data
      if 1 ≤ y ∧ 1 ≤ m ∧ m ≤ 12 ∧ 1 ≤ d ∧ d ≤ daysInMonth y m then
        some (y, m, d)
      else none
    else none
  | _ => none

/-- Comparison of parsed dates, as Python compares `date` objects. -/
def dateLt (a b : Nat × Nat × Nat) : Bool :=
  decide (a.1 < b.1) ||
    (decide (a.1 = b.1) && (decide (a.2.1 < b.2.1) ||
      (decide (a.2.1 = b.2.1) && decide (a.2.2 < b.2.2))))

/-- Zero-padding for `date.isoformat()`. -/
def padNat (width n : Nat) : String :=
  let s := toString n
  String.mk (List.replicate (width - s.length) '0') ++ s

/-- `date.isoformat()` of a parsed `(y, m, d)` triple. -/
def isoDate (d : Nat × Nat × Nat) : String :=
  padNat 4 d.1 ++ "-" ++ padNat 2 d.2.1 ++ "-" ++ padNat 2 d.2.2

/-- Insertion into a descending list (Python `sorted(..., reverse=True)`). -/
def insertDesc (s : String) : List String → List String
  | [] => [s]
  | t :: ts => if t < s then s :: t :: ts else t :: insertDesc s ts

/-- Descending string sort used for day buckets and file names. -/
def sortDesc (l : List String) : List String := l.foldr insertDesc []

/-- Line 142: any kind value other than `"capturas"` selects `tickets`. -/
def kindDirOf (kind : String) : String :=
  if kind = "capturas" then "capturas" else "tickets"

/-- A listing entry as built by `list_items`. -/
structure Item where
  date : String
  name : String
  url : String
  kind : String
  cat : String
  owner : String
deriving DecidableEq, Repr

/-- The `url` field of a listing entry (source line 171). -/
def mkFileUrl (owner kind dayName name : String) : String :=
  "/files/" ++ secure_name owner ++ "/" ++ kind ++ "/" ++ dayName ++ "/" ++ name

/-- `list_items` (source lines 140–176): walk the day buckets of
`DATA_DIR/secure_name(owner)/kindDir` newest-first, skip bucket names that do
not parse as dates, apply the date range, then the category and text filters
per file (names newest-first). -/
def list_items (fs : FS) (owner kind : String)
    (start end_ : Option (Nat × Nat × Nat)) (q cat : Option String) : List Item :=
  let base := fs.filter (fun e =>
    e.owner == secure_name owner && e.kind == kindDirOf kind)
  let qnorm := strLower ((q.getD "").trim)
  let catU := strUpper ((cat.getD "").trim)
  let days := sortDesc ((base.map (fun e => e.day)).dedup)
  (days.map (fun dayName =>
    match parse_ymd dayName with
    | none => []
    | some d =>
      if (match start with | some s0 => dateLt d s0 | none => false) then []
      else if (match end_ with | some e0 => dateLt e0 d | none => false) then []
      else
        let files := sortDesc (((base.filter (fun e => e.day == dayName)).map
          (fun e => e.name)).dedup)
        files.filterMap (fun name =>
          let c := _category_from_name name
          if catU != "" && c != catU then none
          else if qnorm != "" && !(containsSub qnorm.data (strLower name).data) &&
              !(containsSub qnorm.data (strLower c).data) then none
          else some
            { date := isoDate d, name := name,
              url := mkFileUrl owner kind dayName name, kind := kind,
              cat := c, owner := owner }))).flatten

/-! ## Ticket store (sqlite table `tickets_vehiculares`) -/

/-- One row of `tickets_vehiculares` (schema at source lines 183–206). -/
structure TicketRow where
  id : Nat
  owner : String
  captura_owner : String
  captura_kind : String
  captura_day : String
  captura_name : String
  fecha : String
  hora : String
  n_corr_dia : Nat
  tipo_mov : String
  placa : String
  chofer : String
  dni : String
  empresa : String
  guia : String
  material : String
  observaciones : String
  created_at : String
deriving DecidableEq, Repr

/-- The ticket database: the table rows plus the next `AUTOINCREMENT` id. -/
structure DB where
  rows : List TicketRow
  nextId : Nat
deriving DecidableEq, Repr

/-- The composite capture key used by the `WHERE captura_owner=? AND
captura_kind=? AND captura_day=? AND captura_name=?` clauses. -/
def matchesCapture (o k d n : String) (r : TicketRow) : Bool :=
  r.captura_owner == o && r.captura_kind == k &&
    r.captura_day == d && r.captura_name == n

/-- `ORDER BY id DESC LIMIT 1` over a row list. -/
def latestRow : List TicketRow → Option TicketRow
  | [] => none
  | r :: rs =>
    match latestRow rs with
    | none => some r
    | some m => if m.id ≤ r.id then some r else some m

/-- `get_ticket_for_capture` (source lines 215–228). -/
def get_ticket_for_capture (db : DB) (o k d n : String) : Option TicketRow :=
  latestRow (db.rows.filter (matchesCapture o k d n))

/-- `delete_tickets_for_capture` (source lines 254–265). -/
def delete_tickets_for_capture (db : DB) (o k d n : String) : DB :=
  { db with rows := db.rows.filter (fun r => !(matchesCapture o k d n r)) }

/-- `SELECT MAX(n_corr_dia) FROM ... WHERE owner=? AND fecha=?`, with the SQL
`NULL` of an empty selection read back as 0 (source lines 1100–1105). -/
def maxCorr (rows : List TicketRow) (o fecha : String) : Nat :=
  rows.foldl (fun acc r =>
    if r.owner == o && r.fecha == fecha then max acc r.n_corr_dia else acc) 0

/-- `_can_access_owner` (source lines 413–418). -/
def _can_access_owner (role user owner : String) : Bool :=
  role == "admin" || owner == user

/-- The mutable form fields posted to `/ticket/save`. -/
structure SaveForm where
  tipo_mov : String
  placa : String
  guia : String
  chofer : String
  dni : String
  empresa : String
  material : String
  observaciones : String
deriving DecidableEq, Repr

/-- The `UPDATE ... SET` of `ticket_save` (source lines 1089–1097): mutable
fields only; the key fields, `fecha`, `hora` and `n_corr_dia` are untouched. -/
def updateFields (f : SaveForm) (r : TicketRow) : TicketRow :=
  { r with
    tipo_mov := f.tipo_mov, placa := f.placa, chofer := f.chofer,
    dni := f.dni, empresa := f.empresa, guia := f.guia,
    material := f.material, observaciones := f.observaciones }

/-- Locate the capture file addressed by `_safe_path`'s sanitized components
(the `os.stat` of source line 1080, source of `fecha`/`hora`). -/
def findFile (fs : FS) (o k d n : String) : Option FSFile :=
  fs.find? (fun e => e.owner == o && e.kind == k && e.day == d && e.name == n)

/-- `POST /ticket/save` (source lines 1059–1124), after login.  The decision
to update rather than insert hinges solely on the client-supplied
`ticket_id`; `fecha`/`hora` come from the capture file's modification time
(`os.stat`), not from the day-bucket name; `now_s` stands for
`datetime.now().isoformat()`.  Path resolution inside `_safe_path` is
verified separately (`safe_path_contained`); here it appears as the
sanitized-component file lookup plus the kind check, whose failures are 404s. -/
def ticket_save (fs : FS) (db : DB) (role user owner kind day name : String)
    (form : SaveForm) (ticket_id : Option Nat) (now_s : String) :
    Except Err (DB × Nat) :=
  if !(_can_access_owner role user owner) then .error .forbidden
  else if !(kind == "capturas" || kind == "tickets") then .error .notFound
  else
    match findFile fs (secure_name owner) kind (secure_name day) (secure_name name) with
    | none => .error .notFound
    | some entry =>
      match ticket_id with
      | some tid =>
        .ok ({ db with rows := db.rows.map (fun r =>
          if r.id = tid then updateFields form r else r) }, tid)
      | none =>
        let fecha := entry.mtimeDate
        let hora := entry.mtimeTime
        let last_corr := maxCorr db.rows owner fecha
        let corr := last_corr + 1
        let row : TicketRow := {
          id := db.nextId, owner := owner, captura_owner := owner,
          captura_kind := kind, captura_day := day, captura_name := name,
          fecha := fecha, hora := hora, n_corr_dia := corr,
          tipo_mov := form.tipo_mov, placa := form.placa, chofer := form.chofer,
          dni := form.dni, empresa := form.empresa, guia := form.guia,
          material := form.material, observaciones := form.observaciones,
          created_at := now_s }
        .ok ({ rows := db.rows ++ [row], nextId := db.nextId + 1 }, db.nextId)

/-- The form-driven save flow: `/ticket/form` looks up the ticket for the raw
capture coordinates (source line 1009) and pre-fills `ticket_id` with its id
(line 1020); submitting the form posts that id back to `/ticket/save`. -/
def upsertViaForm (fs : FS) (db : DB) (role user owner kind day name : String)
    (form : SaveForm) (now_s : String) : Except Err (DB × Nat) :=
  ticket_save fs db role user owner kind day name form
    ((get_ticket_for_capture db owner kind day name).map (fun t => t.id)) now_s

/-- Repeated form-driven saves; a failed save leaves the store unchanged. -/
def iterUpsert (fs : FS) (role user owner kind day name : String)
    (forms : Nat → SaveForm) (nows : Nat → String) : Nat → DB → DB
  | 0, db => db
  | n + 1, db =>
    match upsertViaForm fs db role user owner kind day name (forms n) (nows n) with
    | .ok (db', _) => iterUpsert fs role user owner kind day name forms nows n db'
    | .error _ => iterUpsert fs role user owner kind day name forms nows n db

/-- Number of Ticket Records stored for a capture key. -/
def countCapture (db : DB) (o k d n : String) : Nat :=
  (db.rows.filter (matchesCapture o k d n)).length

/-- The sequence numbers currently stored for a capture key. -/
def seqsFor (db : DB) (o k d n : String) : List Nat :=
  (db.rows.filter (matchesCapture o k d n)).map (fun r => r.n_corr_dia)

/-- `attach_tickets` (source lines 230–252): annotate each listed item with
its ticket and apply the `pendientes`/`completos` status filter. -/
def attach_tickets (db : DB) (owner kind : String) (items : List Item)
    (status : Option String) : List (Item × Option TicketRow) :=
  let st := strLower (status.getD "")
  items.filterMap (fun it =>
    let t := get_ticket_for_capture db owner kind it.date it.name
    if st == "pendientes" && t.isSome then none
    else if st == "completos" && !t.isSome then none
    else some (it, t))

/-- Python `counts[it["cat"]] = counts.get(it["cat"], 0) + 1` on an
insertion-ordered dict: update in place, or append a fresh key. -/
def bump : List (String × Nat) → String → List (String × Nat)
  | [], k => [(k, 1)]
  | (k', v) :: rest, k =>
    if k' == k then (k', v + 1) :: rest else (k', v) :: bump rest k

/-- The four-category counter dict of `api_list` (source lines 465–467). -/
def countsOf (cats : List String) : List (String × Nat) :=
  cats.foldl bump [("PERSONA", 0), ("AUTO", 0), ("ANIMAL", 0), ("OTROS", 0)]

/-- Dict lookup with default 0. -/
def getCount (m : List (String × Nat)) (k : String) : Nat :=
  match m.find? (fun p => p.1 == k) with
  | some p => p.2
  | none => 0

/-- The JSON payload of `GET /api/list`. -/
structure ListResp where
  owner : String
  count : Nat
  total : Nat
  page : Nat
  limit : Nat
  pages : Nat
  items : List (Item × Option TicketRow)
  counts : List (String × Nat)
deriving DecidableEq, Repr

/-- The effective owner of `api_list`/`export_csv` (source lines 449–452):
non-admin callers always get their own user name, an admin gets the requested
owner when one is supplied and non-empty (Python `owner or user`). -/
def effectiveOwner (role user : String) (ownerQ : Option String) : String :=
  if role != "admin" then user
  else match ownerQ with
    | some o => if o == "" then user else o
    | none => user

/-- `items_all` of the source: the fully filtered, ordered, ticket-annotated
listing that `api_list` paginates and aggregates over. -/
abbrev fullListing (fs : FS) (db : DB) (owner kind : String)
    (start end_ : Option (Nat × Nat × Nat)) (q cat status : Option String) :
    List (Item × Option TicketRow) :=
  attach_tickets db owner kind (list_items fs owner kind start end_ q cat) status

/-- `GET /api/list` (source lines 432–479), after login.  FastAPI's query
validation (`pattern="^(capturas|tickets)$"`, `page ≥ 1`, `1 ≤ limit ≤ 200`)
rejects out-of-range values with a 422 before the handler body runs; a
non-admin caller's requested owner is silently replaced by their own user
name (lines 449–452); `start`/`end` arrive pre-parsed here. -/
def api_list (fs : FS) (db : DB) (role user : String) (ownerQ : Option String)
    (kind : String) (start end_ : Option (Nat × Nat × Nat))
    (q cat status : Option String) (page limit : Nat) :
    Except Err ListResp :=
  if !(kind == "capturas" || kind == "tickets") then .error .validation
  else if page < 1 then .error .validation
  else if limit < 1 ∨ 200 < limit then .error .validation
  else
    let owner := effectiveOwner role user ownerQ
    let items_all := fullListing fs db owner kind start end_ q cat status
    let total := items_all.length
    let start_idx := (page - 1) * limit
    let items := (items_all.drop start_idx).take limit
    .ok
      { owner := owner, count := items.length, total := total, page := page,
        limit := limit, pages := (total + limit - 1) / limit, items := items,
        counts := countsOf (items_all.map (fun p => p.1.cat)) }

/-! ## Concrete fixtures used by witnesses and counterexamples -/

/-- A one-file store: owner `m`, day bucket `2024-01-05`, modification time
falling on the next day. -/
def fsW : FS :=
  [{ owner := "m", kind := "capturas", day := "2024-01-05", name := "f.jpg",
     mtimeDate := "2024-01-06", mtimeTime := "10:00:00" }]

/-- Two captures of owner `m` in the same day bucket, same mtime date. -/
def fsW2 : FS :=
  fsW ++ [{ owner := "m", kind := "capturas", day := "2024-01-05",
            name := "g.jpg", mtimeDate := "2024-01-06", mtimeTime := "11:00:00" }]

/-- A foreign owner's file, for the isolation witness. -/
def fsB : FS :=
  [{ owner := "x", kind := "capturas", day := "2024-01-05",
     name := "persona_1.jpg", mtimeDate := "2024-01-05", mtimeTime := "09:00:00" }]

/-- The empty ticket store. -/
def dbEmpty : DB := { rows := [], nextId := 1 }

/-- A well-formed ticket form. -/
def formW : SaveForm :=
  { tipo_mov := "ENTRADA", placa := "ABC-123", guia := "G-1", chofer := "Ana",
    dni := "", empresa := "", material := "", observaciones := "" }

/-- A form whose movement type is outside `ENTRADA`/`SALIDA`. -/
def formBad : SaveForm := { formW with tipo_mov := "cualquiera" }

end Orbet

namespace Orbet

/-! ## Theorems for the pure string layer -/

theorem underscore_mem_keepChars : '_' ∈ keepChars := by decide

theorem secure_name_data (s : String) :
    (secure_name s).data = s.data.map (fun c => if c ∈ keepChars then c else '_') := rfl

/-- Every character produced by `secure_name` is in the allow-list. -/
theorem secure_name_allowed (s : String) :
    ∀ c ∈ (secure_name s).data, c ∈ keepChars := by
  intro c hc
  rw [secure_name_data] at hc
  rcases List.mem_map.mp hc with ⟨a, _, rfl⟩
  by_cases h : a ∈ keepChars
  · simp [h]
  · simpa [h] using underscore_mem_keepChars

theorem map_keep_fixes :
    ∀ l : List Char, (∀ c ∈ l, c ∈ keepChars) →
      l.map (fun c => if c ∈ keepChars then c else '_') = l := by
  intro l
  induction l with
  | nil => intro _; rfl
  | cons c t ih =>
    intro h
    have hc : c ∈ keepChars := h c (by simp)
    have ht := ih (fun x hx => h x (by simp [hx]))
    simp [hc, ht]

/-- `secure_name` fixes any string all of whose characters are allowed. -/
theorem secure_name_fixes {s : String} (h : ∀ c ∈ s.data, c ∈ keepChars) :
    secure_name s = s := by
  cases s with
  | mk data =>
    show String.mk _ = String.mk data
    congr 1
    exact map_keep_fixes data h

/-- C10 (part): `secure_name` is idempotent. -/
theorem secure_name_idem (s : String) :
    secure_name (secure_name s) = secure_name s :=
  secure_name_fixes (secure_name_allowed s)

theorem secure_name_length (s : String) :
    (secure_name s).length = s.length := by
  cases s with
  | mk data => simp [secure_name, String.length]

/-- C10: the sanitizer `secure_name` is idempotent, length-preserving, and its
output consists only of allow-listed characters (alphanumerics, `.`, `_`, `-`). -/
theorem secure_name_sanitizer (s : String) :
    secure_name (secure_name s) = secure_name s ∧
    (secure_name s).length = s.length ∧
    ∀ c ∈ (secure_name s).data, c ∈ keepChars :=
  ⟨secure_name_idem s, secure_name_length s, secure_name_allowed s⟩

/-- C8: the classifier agrees with the spec's ordered-keyword-group description
(first matching group wins, default `OTROS`), and the three scenario filenames
classify as stated. -/
theorem category_classifier_spec :
    (∀ name, _category_from_name name = classifySpec name) ∧
    _category_from_name "persona_0001.jpg" = "PERSONA" ∧
    _category_from_name "camion_14.jpg" = "AUTO" ∧
    _category_from_name "random.jpg" = "OTROS" := by
  refine ⟨fun name => ?_, by decide, by decide, by decide⟩
  unfold _category_from_name classifySpec specGroups
  by_cases h1 : containsSub "persona".data (strLower name).data
  · simp [h1, List.find?]
  · by_cases h2 : (["auto", "car", "vehic", "truck", "bus", "camion"]).any
        (fun x => containsSub x.data (strLower name).data)
    · simp [h1, h2, List.find?]
    · by_cases h3 : (["animal", "dog", "cat", "bird"]).any
          (fun x => containsSub x.data (strLower name).data)
      · simp [h1, h2, h3, List.find?]
      · simp [h1, h2, h3, List.find?]

/-! ## Path-resolution theorems -/

theorem joinParts_cons_drop {s : String} (h : s = "" ∨ s = ".") (rest : List String) :
    joinParts (s :: rest) = joinParts rest := by
  simp [joinParts, h]

theorem joinParts_cons_keep {s : String} (h : ¬(s = "" ∨ s = ".")) (rest : List String) :
    joinParts (s :: rest) = s :: joinParts rest := by
  simp [joinParts, h]

theorem resolveComps_dot (acc rest : List String) :
    resolveComps acc ("." :: rest) = resolveComps acc rest := by
  simp [resolveComps]

theorem resolveComps_pop (acc rest : List String) :
    resolveComps acc (".." :: rest) = resolveComps acc.dropLast rest := by
  simp [resolveComps]

theorem resolveComps_push {c : String} (h1 : c ≠ ".") (h2 : c ≠ "..")
    (acc rest : List String) :
    resolveComps acc (c :: rest) = resolveComps (acc ++ [c]) rest := by
  simp [resolveComps, h1, h2]

/-- Components that are not dot entries pass straight through resolution. -/
theorem resolveComps_append_front (pre : List String)
    (hpre : ∀ c ∈ pre, c ≠ "." ∧ c ≠ "..") (acc rest : List String) :
    resolveComps acc (pre ++ rest) = resolveComps (acc ++ pre) rest := by
  induction pre generalizing acc with
  | nil => simp
  | cons c t ih =>
    have hc := hpre c (by simp)
    rw [List.cons_append, resolveComps_push hc.1 hc.2,
      ih (fun x hx => hpre x (by simp [hx]))]
    simp

theorem renderPath_concat (W : List String) (w : String) :
    renderPath (W ++ [w]) = renderPath W ++ "/" ++ w := by
  simp [renderPath, List.foldl_append]

theorem isPrefixOf_length_le {l₁ l₂ : List Char} (h : l₁.isPrefixOf l₂ = true) :
    l₁.length ≤ l₂.length := by
  induction l₁ generalizing l₂ with
  | nil => simp
  | cons c cs ih =>
    cases l₂ with
    | nil => simp [List.isPrefixOf] at h
    | cons b bs =>
      simp only [List.isPrefixOf, Bool.and_eq_true] at h
      simpa using ih h.2

theorem data_ne_nil_of_ne_empty {w : String} (hw : w ≠ "") : w.data ≠ [] := by
  intro h
  apply hw
  cases w with
  | mk d =>
    cases h
    rfl

/-- A strict descendant's string form never passes the `startswith` check run
in the other direction: a path cannot start with the string of a strictly
longer path. -/
theorem strStartsWith_concat_false (W : List String) (w : String) (hw : w ≠ "") :
    strStartsWith (renderPath W) (renderPath (W ++ [w])) = false := by
  cases hb : strStartsWith (renderPath W) (renderPath (W ++ [w])) with
  | false => rfl
  | true =>
    exfalso
    have hle := isPrefixOf_length_le hb
    rw [renderPath_concat] at hle
    have hdata : (renderPath W ++ "/" ++ w).data = (renderPath W).data ++ "/".data ++ w.data := by
      simp
    rw [hdata] at hle
    simp only [List.length_append] at hle
    have hpos : 0 < w.data.length :=
      List.length_pos.mpr (data_ne_nil_of_ne_empty hw)
    have hslash : ("/" : String).data.length = 1 := rfl
    rw [hslash] at hle
    omega

theorem joinParts_nil : joinParts [] = [] := rfl

theorem resolveComps_nil (acc : List String) : resolveComps acc [] = acc := rfl

theorem check_false_of_concat {W : List String} {w : String} (hw : w ≠ "")
    (hcheck : strStartsWith (renderPath W) (renderPath (W ++ [w])) = true) : False := by
  rw [strStartsWith_concat_false W w hw] at hcheck
  exact Bool.false_ne_true hcheck

/-- Resolving the two caller-controlled segments `day`/`name` on top of a base
`Z ++ [k]` (with `k` a normal segment) either stays below `Z` or climbs to
exactly `Z.dropLast`. -/
theorem resolve_two_segments (Z : List String) (k d n : String) :
    Z <+: resolveComps (Z ++ [k]) (joinParts [d, n]) ∨
    resolveComps (Z ++ [k]) (joinParts [d, n]) = Z.dropLast := by
  by_cases hd : d = "" ∨ d = "."
  · rw [joinParts_cons_drop hd]
    by_cases hn : n = "" ∨ n = "."
    · rw [joinParts_cons_drop hn, joinParts_nil, resolveComps_nil]
      left; exact List.prefix_append _ _
    · by_cases hn2 : n = ".."
      · subst hn2
        rw [joinParts_cons_keep hn, joinParts_nil, resolveComps_pop,
          resolveComps_nil, List.dropLast_concat]
        left; exact List.prefix_rfl
      · rw [joinParts_cons_keep hn, joinParts_nil,
          resolveComps_push (fun hh => hn (Or.inr hh)) hn2, resolveComps_nil]
        left
        rw [List.append_assoc]
        exact List.prefix_append _ _
  · by_cases hd2 : d = ".."
    · subst hd2
      rw [joinParts_cons_keep hd, resolveComps_pop, List.dropLast_concat]
      by_cases hn : n = "" ∨ n = "."
      · rw [joinParts_cons_drop hn, joinParts_nil, resolveComps_nil]
        left; exact List.prefix_rfl
      · by_cases hn2 : n = ".."
        · subst hn2
          rw [joinParts_cons_keep hn, joinParts_nil, resolveComps_pop,
            resolveComps_nil]
          right; rfl
        · rw [joinParts_cons_keep hn, joinParts_nil,
            resolveComps_push (fun hh => hn (Or.inr hh)) hn2, resolveComps_nil]
          left; exact List.prefix_append _ _
    · rw [joinParts_cons_keep hd, resolveComps_push (fun hh => hd (Or.inr hh)) hd2]
      by_cases hn : n = "" ∨ n = "."
      · rw [joinParts_cons_drop hn, joinParts_nil, resolveComps_nil]
        left
        rw [List.append_assoc]
        exact List.prefix_append _ _
      · by_cases hn2 : n = ".."
        · subst hn2
          rw [joinParts_cons_keep hn, joinParts_nil, resolveComps_pop,
            resolveComps_nil, List.dropLast_concat]
          left
          exact List.prefix_append _ _
        · rw [joinParts_cons_keep hn, joinParts_nil,
            resolveComps_push (fun hh => hn (Or.inr hh)) hn2, resolveComps_nil]
          left
          simp only [List.append_assoc]
          exact List.prefix_append _ _

theorem dropLast_good {root : List String} (hroot : ∀ c ∈ root, goodComp c) :
    ∀ c ∈ root.dropLast, goodComp c :=
  fun c hc => hroot c (List.dropLast_sublist root |>.subset hc)

/-- C3: for every input tuple, `_safe_path` sanitizes the owner/day/name
segments through the allow-list, and whenever it returns a path at all, that
path is (a) exactly the unmodified resolution of the sanitized join — an
escaping resolution is answered with `pathEscape`, never a corrected path —
and (b) a descendant of the resolved `root/owner` subtree. -/
theorem safe_path_contained (root : List String) (hroot : ∀ c ∈ root, goodComp c)
    (owner kind day name : String) (p : List String)
    (h : _safe_path root owner kind day name = .ok p) :
    resolveComps [] (root ++ joinParts [secure_name owner]) <+: p ∧
    p = resolveComps [] (root ++ joinParts
      [secure_name owner, kind, secure_name day, secure_name name]) ∧
    (∀ c ∈ (secure_name owner).data, c ∈ keepChars) ∧
    (∀ c ∈ (secure_name day).data, c ∈ keepChars) ∧
    (∀ c ∈ (secure_name name).data, c ∈ keepChars) := by
  have hrootnd : ∀ c ∈ root, c ≠ "." ∧ c ≠ ".." :=
    fun c hc => ⟨(hroot c hc).2.1, (hroot c hc).2.2.1⟩
  by_cases hk : kind = "capturas" ∨ kind = "tickets"
  · unfold _safe_path at h
    rw [if_pos hk] at h
    simp only at h
    have hkdrop : ¬(kind = "" ∨ kind = ".") := by
      rcases hk with rfl | rfl <;> decide
    have hkpop : kind ≠ ".." := by
      rcases hk with rfl | rfl <;> decide
    set o := secure_name owner with ho_def
    set d := secure_name day with hd_def
    set n := secure_name name with hn_def
    by_cases hcheck : strStartsWith
        (renderPath (resolveComps [] (root ++ joinParts [o, kind, d, n])))
        (renderPath (resolveComps [] (root ++ joinParts [o]))) = true
    · rw [if_pos hcheck] at h
      simp only [Except.ok.injEq] at h
      subst h
      refine ⟨?_, rfl, secure_name_allowed owner, secure_name_allowed day,
        secure_name_allowed name⟩
      -- the remaining goal: resolved root/owner is a component prefix
      by_cases ho : o = "" ∨ o = "."
      · have htgt : resolveComps [] (root ++ joinParts [o]) = root := by
          rw [joinParts_cons_drop ho, joinParts_nil,
            resolveComps_append_front root hrootnd [] [], List.nil_append,
            resolveComps_nil]
        have hpath : resolveComps [] (root ++ joinParts [o, kind, d, n]) =
            resolveComps (root ++ [kind]) (joinParts [d, n]) := by
          rw [joinParts_cons_drop ho, joinParts_cons_keep hkdrop,
            resolveComps_append_front root hrootnd [] _, List.nil_append,
            resolveComps_push (fun hh => hkdrop (Or.inr hh)) hkpop]
        rw [htgt, hpath]
        rw [htgt, hpath] at hcheck
        rcases resolve_two_segments root kind d n with hgood | hclimb
        · exact hgood
        · rw [hclimb] at hcheck ⊢
          rcases List.eq_nil_or_concat root with hnil | ⟨W, w, rfl⟩
          · rw [hnil]
            exact List.prefix_rfl
          · exfalso
            rw [List.concat_eq_append, List.dropLast_concat] at hcheck
            exact check_false_of_concat
              (hroot w (by simp)).1 hcheck
      · by_cases ho2 : o = ".."
        · have htgt : resolveComps [] (root ++ joinParts [o]) = root.dropLast := by
            rw [joinParts_cons_keep ho, joinParts_nil,
              resolveComps_append_front root hrootnd [] _, List.nil_append, ho2,
              resolveComps_pop, resolveComps_nil]
          have hpath : resolveComps [] (root ++ joinParts [o, kind, d, n]) =
              resolveComps (root.dropLast ++ [kind]) (joinParts [d, n]) := by
            rw [joinParts_cons_keep ho, joinParts_cons_keep hkdrop,
              resolveComps_append_front root hrootnd [] _, List.nil_append, ho2,
              resolveComps_pop,
              resolveComps_push (fun hh => hkdrop (Or.inr hh)) hkpop]
          rw [htgt, hpath]
          rw [htgt, hpath] at hcheck
          rcases resolve_two_segments root.dropLast kind d n with hgood | hclimb
          · exact hgood
          · rw [hclimb] at hcheck ⊢
            rcases List.eq_nil_or_concat root.dropLast with hnil | ⟨W, w, hW⟩
            · rw [hnil]
              exact List.prefix_rfl
            · exfalso
              rw [hW, List.concat_eq_append, List.dropLast_concat] at hcheck
              have hwgood : goodComp w :=
                dropLast_good hroot w (by rw [hW]; simp)
              exact check_false_of_concat hwgood.1 hcheck
        · have honempty : o ≠ "" := fun hh => ho (Or.inl hh)
          have hond : o ≠ "." := fun hh => ho (Or.inr hh)
          have htgt : resolveComps [] (root ++ joinParts [o]) = root ++ [o] := by
            rw [joinParts_cons_keep ho, joinParts_nil,
              resolveComps_append_front root hrootnd [] _, List.nil_append,
              resolveComps_push hond ho2, resolveComps_nil]
          have hpath : resolveComps [] (root ++ joinParts [o, kind, d, n]) =
              resolveComps ((root ++ [o]) ++ [kind]) (joinParts [d, n]) := by
            rw [joinParts_cons_keep ho, joinParts_cons_keep hkdrop,
              resolveComps_append_front root hrootnd [] _, List.nil_append,
              resolveComps_push hond ho2,
              resolveComps_push (fun hh => hkdrop (Or.inr hh)) hkpop]
          rw [htgt, hpath]
          rw [htgt, hpath] at hcheck
          rcases resolve_two_segments (root ++ [o]) kind d n with hgood | hclimb
          · exact hgood
          · rw [hclimb] at hcheck ⊢
            exfalso
            rw [List.dropLast_concat] at hcheck
            exact check_false_of_concat honempty hcheck
    · rw [if_neg hcheck] at h
      exact absurd h (by simp)
  · unfold _safe_path at h
    rw [if_neg hk] at h
    exact absurd h (by simp)

/-! ## Generic list helpers -/

theorem filter_none {α} (p : α → Bool) :
    ∀ l : List α, (∀ a ∈ l, p a = false) → l.filter p = [] := by
  intro l
  induction l with
  | nil => intro _; rfl
  | cons a t ih =>
    intro h
    simp [List.filter_cons, h a (List.mem_cons_self a t),
      ih (fun x hx => h x (by simp [hx]))]

theorem filter_not_self {α} (p : α → Bool) :
    ∀ l : List α, (l.filter (fun a => !(p a))).filter p = [] := by
  intro l
  induction l with
  | nil => rfl
  | cons a t ih =>
    cases hpa : p a with
    | true => simp [List.filter_cons, hpa, ih]
    | false => simp [List.filter_cons, hpa, ih]

theorem filter_self_idem {α} (q : α → Bool) :
    ∀ l : List α, (l.filter q).filter q = l.filter q := by
  intro l
  induction l with
  | nil => rfl
  | cons a t ih =>
    cases hqa : q a with
    | true => simp [List.filter_cons, hqa, ih]
    | false => simp [List.filter_cons, hqa, ih]

theorem delete_noop_aux {α} (p : α → Bool) :
    ∀ l : List α, l.filter p = [] → l.filter (fun a => !(p a)) = l := by
  intro l
  induction l with
  | nil => intro _; rfl
  | cons a t ih =>
    intro h
    cases hpa : p a with
    | true => simp [List.filter_cons, hpa] at h
    | false =>
      simp only [List.filter_cons, hpa, if_neg] at h ⊢
      simp [ih h]

theorem mem_insertDesc {x s : String} :
    ∀ l : List String, x ∈ insertDesc s l ↔ x = s ∨ x ∈ l := by
  intro l
  induction l with
  | nil => simp [insertDesc]
  | cons t ts ih =>
    by_cases h : t < s
    · simp [insertDesc, h]
    · simp only [insertDesc, h, if_neg, ite_false, List.mem_cons, ih]
      tauto

theorem mem_sortDesc {x : String} :
    ∀ l : List String, x ∈ sortDesc l ↔ x ∈ l := by
  intro l
  induction l with
  | nil => simp [sortDesc]
  | cons a t ih =>
    show x ∈ insertDesc a (sortDesc t) ↔ _
    rw [mem_insertDesc]
    simp [ih]

/-! ## Ticket deletion (C9) -/

theorem matches_ne_keys {o k d n o2 k2 d2 n2 : String}
    (hne : ¬(o2 = o ∧ k2 = k ∧ d2 = d ∧ n2 = n)) (r : TicketRow)
    (h : matchesCapture o2 k2 d2 n2 r = true) :
    matchesCapture o k d n r = false := by
  cases hmk : matchesCapture o k d n r with
  | false => rfl
  | true =>
    exfalso
    unfold matchesCapture at h hmk
    simp only [Bool.and_eq_true, beq_iff_eq] at h hmk
    exact hne ⟨h.1.1.1.symm.trans hmk.1.1.1, h.1.1.2.symm.trans hmk.1.1.2,
      h.1.2.symm.trans hmk.1.2, h.2.symm.trans hmk.2⟩

theorem delete_preserves_other {o k d n o2 k2 d2 n2 : String}
    (hne : ¬(o2 = o ∧ k2 = k ∧ d2 = d ∧ n2 = n)) :
    ∀ rows : List TicketRow,
      (rows.filter (fun r => !(matchesCapture o k d n r))).filter
          (matchesCapture o2 k2 d2 n2) =
        rows.filter (matchesCapture o2 k2 d2 n2) := by
  intro rows
  induction rows with
  | nil => rfl
  | cons r t ih =>
    cases hm2 : matchesCapture o2 k2 d2 n2 r with
    | true =>
      have hm : matchesCapture o k d n r = false := matches_ne_keys hne r hm2
      simp [List.filter_cons, hm, hm2, ih]
    | false =>
      cases hm : matchesCapture o k d n r with
      | true => simp [List.filter_cons, hm, hm2, ih]
      | false => simp [List.filter_cons, hm, hm2, ih]

/-- C9: deleting the tickets of a capture key removes every matching Ticket
Record — a subsequent `get_ticket_for_capture` (findTicket) answers absent —
while records under any other key are untouched; the operation is idempotent,
and a delete with no matching records is a no-op rather than an error. -/
theorem delete_tickets_spec (db : DB) (o k d n o2 k2 d2 n2 : String)
    (hne : ¬(o2 = o ∧ k2 = k ∧ d2 = d ∧ n2 = n)) :
    get_ticket_for_capture (delete_tickets_for_capture db o k d n) o k d n = none ∧
    delete_tickets_for_capture (delete_tickets_for_capture db o k d n) o k d n =
      delete_tickets_for_capture db o k d n ∧
    (db.rows.filter (matchesCapture o k d n) = [] →
      delete_tickets_for_capture db o k d n = db) ∧
    (delete_tickets_for_capture db o k d n).rows.filter
        (matchesCapture o2 k2 d2 n2) =
      db.rows.filter (matchesCapture o2 k2 d2 n2) := by
  refine ⟨?_, ?_, ?_, ?_⟩
  · unfold get_ticket_for_capture delete_tickets_for_capture
    rw [filter_not_self]
    rfl
  · unfold delete_tickets_for_capture
    congr 1
    exact filter_self_idem _ db.rows
  · intro h
    unfold delete_tickets_for_capture
    rw [delete_noop_aux _ db.rows h]
  · exact delete_preserves_other hne db.rows

/-- Concrete run of `delete_tickets_spec`: after the delete, the lookup for
the deleted key is absent. -/
theorem delete_tickets_spec_witness :
    get_ticket_for_capture
      (delete_tickets_for_capture dbEmpty "m" "capturas" "2024-01-05" "a.jpg")
      "m" "capturas" "2024-01-05" "a.jpg" = none :=
  (delete_tickets_spec dbEmpty "m" "capturas" "2024-01-05" "a.jpg"
    "m" "capturas" "2024-01-05" "b.jpg" (by decide)).1

/-! ## Listing isolation (C2) -/

/-- Destructuring a `list_items` membership: every returned item corresponds
to a file stored below `DATA_DIR/secure_name(owner)/kindDir`, and carries the
classifier's category for its own name. -/
theorem mem_list_items {fs : FS} {owner kind : String}
    {start end_ : Option (Nat × Nat × Nat)} {q cat : Option String} {it : Item}
    (h : it ∈ list_items fs owner kind start end_ q cat) :
    ∃ e ∈ fs, e.owner = secure_name owner ∧ e.kind = kindDirOf kind ∧
      e.name = it.name ∧ it.cat = _category_from_name it.name ∧
      it.owner = owner := by
  unfold list_items at h
  simp only [List.mem_flatten, List.mem_map] at h
  obtain ⟨l, ⟨dayName, hday, rfl⟩, hit⟩ := h
  split at hit
  · simp at hit
  · split at hit
    · simp at hit
    · split at hit
      · simp at hit
      · simp only [List.mem_filterMap] at hit
        obtain ⟨name, hname, hg⟩ := hit
        split at hg
        · exact absurd hg (by simp)
        · split at hg
          · exact absurd hg (by simp)
          · simp only [Option.some.injEq] at hg
            subst hg
            rw [mem_sortDesc, List.mem_dedup] at hname
            obtain ⟨e, he, rfl⟩ := List.mem_map.mp hname
            obtain ⟨hefs, hpred⟩ := List.mem_filter.mp (List.mem_filter.mp he).1
            simp only [Bool.and_eq_true, beq_iff_eq] at hpred
            exact ⟨e, hefs, hpred.1, hpred.2, rfl, rfl, rfl⟩

/-- C2: a listing for effective owner A returns only items physically stored
below `root/secure_name A/` (part 1), and is a function of A's subtree alone:
extending the store with files of a different owner B does not change A's
listing (part 2). -/
theorem list_items_owner_isolation (A B kind : String)
    (start end_ : Option (Nat × Nat × Nat)) (q cat : Option String)
    (fs extraB : FS) (hAB : secure_name A ≠ secure_name B)
    (hB : ∀ e ∈ extraB, e.owner = secure_name B) :
    (∀ it ∈ list_items fs A kind start end_ q cat, ∃ e ∈ fs,
      e.owner = secure_name A ∧ e.kind = kindDirOf kind ∧ e.name = it.name) ∧
    list_items (fs ++ extraB) A kind start end_ q cat =
      list_items fs A kind start end_ q cat := by
  constructor
  · intro it hit
    obtain ⟨e, he, h1, h2, h3, _, _⟩ := mem_list_items hit
    exact ⟨e, he, h1, h2, h3⟩
  · have hbase : (fs ++ extraB).filter (fun e =>
        e.owner == secure_name A && e.kind == kindDirOf kind) =
        fs.filter (fun e => e.owner == secure_name A && e.kind == kindDirOf kind) := by
      rw [List.filter_append, filter_none _ extraB ?_, List.append_nil]
      intro e he
      have hBo : (e.owner == secure_name A) = false :=
        beq_eq_false_iff_ne.mpr (by rw [hB e he]; exact fun hh => hAB hh.symm)
      simp [hBo]
    unfold list_items
    rw [hbase]

/-- Concrete run of `list_items_owner_isolation`: adding owner `x`'s file does
not change owner `m`'s listing. -/
theorem list_items_owner_isolation_witness :
    list_items (fsW ++ fsB) "m" "capturas" none none none none =
      list_items fsW "m" "capturas" none none none none :=
  (list_items_owner_isolation "m" "x" "capturas" none none none none fsW fsB
    (by decide) (by decide)).2

/-- Concrete run of `safe_path_contained`: a `../` traversal in `name` is
neutralized by sanitization and the result stays below the owner subtree. -/
theorem safe_path_contained_witness :
    resolveComps [] (["data"] ++ joinParts [secure_name "cliente1"]) <+:
      ["data", "cliente1", "capturas", "2024-01-05", ".._etc_passwd"] :=
  (safe_path_contained ["data"] (by decide) "cliente1" "capturas" "2024-01-05"
    "../etc/passwd" ["data", "cliente1", "capturas", "2024-01-05", ".._etc_passwd"]
    rfl).1

/-! ## Counter-dict lemmas and the owner scope of `api_list` (C4, C7) -/

theorem getCount_cons_ne {k2 k : String} {v : Nat} (h : (k2 == k) = false)
    (l : List (String × Nat)) : getCount ((k2, v) :: l) k = getCount l k := by
  simp [getCount, List.find?, h]

theorem getCount_bump_self (k : String) :
    ∀ m : List (String × Nat), getCount (bump m k) k = getCount m k + 1 := by
  intro m
  induction m with
  | nil => simp [bump, getCount, List.find?]
  | cons p rest ih =>
    obtain ⟨k2, v⟩ := p
    cases hk : k2 == k with
    | true => simp [bump, getCount, List.find?, hk]
    | false =>
      have h1 : bump ((k2, v) :: rest) k = (k2, v) :: bump rest k := by
        simp [bump, hk]
      rw [h1, getCount_cons_ne hk, getCount_cons_ne hk, ih]

theorem getCount_bump_other {k c : String} (hkc : c ≠ k) :
    ∀ m : List (String × Nat), getCount (bump m k) c = getCount m c := by
  intro m
  induction m with
  | nil =>
    have : (k == c) = false := beq_eq_false_iff_ne.mpr (fun h => hkc h.symm)
    simp [bump, getCount, List.find?, this]
  | cons p rest ih =>
    obtain ⟨k2, v⟩ := p
    cases hk : k2 == k with
    | true =>
      cases hc : k2 == c with
      | true =>
        exfalso
        exact hkc ((beq_iff_eq.mp hc).symm.trans (beq_iff_eq.mp hk))
      | false => simp [bump, getCount, List.find?, hk, hc]
    | false =>
      have h1 : bump ((k2, v) :: rest) k = (k2, v) :: bump rest k := by
        simp [bump, hk]
      cases hc : k2 == c with
      | true => simp [getCount, List.find?, hc, h1]
      | false => rw [h1, getCount_cons_ne hc, getCount_cons_ne hc, ih]

theorem getCount_foldl (cats : List String) :
    ∀ (m : List (String × Nat)) (k : String),
      getCount (cats.foldl bump m) k = getCount m k + cats.count k := by
  induction cats with
  | nil => intro m k; simp
  | cons c cs ih =>
    intro m k
    rw [List.foldl_cons, ih]
    by_cases h : c = k
    · subst h
      rw [getCount_bump_self, List.count_cons]
      simp
      omega
    · rw [getCount_bump_other (fun hh => h hh.symm), List.count_cons]
      have : (c == k) = false := beq_eq_false_iff_ne.mpr h
      simp [this]

theorem getCount_zeros (k : String) :
    ∀ m : List (String × Nat), (∀ p ∈ m, p.2 = 0) → getCount m k = 0 := by
  intro m
  induction m with
  | nil => intro _; rfl
  | cons p rest ih =>
    intro h
    cases hpk : p.1 == k with
    | true =>
      have := h p (by simp)
      simp [getCount, List.find?, hpk, this]
    | false =>
      have hrest := ih (fun x hx => h x (by simp [hx]))
      simp only [getCount, List.find?, hpk] at hrest ⊢
      exact hrest

theorem getCount_countsOf (cats : List String) (k : String) :
    getCount (countsOf cats) k = cats.count k := by
  unfold countsOf
  rw [getCount_foldl, getCount_zeros k _ (by intro p hp; fin_cases hp <;> rfl)]
  omega

theorem bump_keys {k : String} :
    ∀ m : List (String × Nat), k ∈ m.map Prod.fst →
      (bump m k).map Prod.fst = m.map Prod.fst := by
  intro m
  induction m with
  | nil => intro h; simp at h
  | cons p rest ih =>
    intro h
    obtain ⟨k2, v⟩ := p
    cases hk : k2 == k with
    | true => simp [bump, hk]
    | false =>
      have hmem : k ∈ rest.map Prod.fst := by
        simp only [List.map_cons, List.mem_cons] at h
        rcases h with h | h
        · exact absurd (beq_iff_eq.mpr h.symm) (by simp [hk])
        · exact h
      simp [bump, hk, ih hmem]

theorem foldl_bump_keys :
    ∀ (cats : List String) (m : List (String × Nat)),
      (∀ c ∈ cats, c ∈ m.map Prod.fst) →
      (cats.foldl bump m).map Prod.fst = m.map Prod.fst := by
  intro cats
  induction cats with
  | nil => intro m _; rfl
  | cons c cs ih =>
    intro m h
    rw [List.foldl_cons]
    have hbk := bump_keys m (h c (by simp))
    rw [ih (bump m c) (fun x hx => by rw [hbk]; exact h x (by simp [hx])), hbk]

theorem countsOf_keys (cats : List String)
    (h : ∀ c ∈ cats, c ∈ ["PERSONA", "AUTO", "ANIMAL", "OTROS"]) :
    (countsOf cats).map Prod.fst = ["PERSONA", "AUTO", "ANIMAL", "OTROS"] := by
  unfold countsOf
  rw [foldl_bump_keys cats _ (fun c hc => by simpa using h c hc)]
  rfl

theorem category_mem_four (name : String) :
    _category_from_name name ∈ ["PERSONA", "AUTO", "ANIMAL", "OTROS"] := by
  unfold _category_from_name
  by_cases h1 : containsSub "persona".data (strLower name).data
  · simp [h1]
  · by_cases h2 : ["auto", "car", "vehic", "truck", "bus", "camion"].any
        (fun x => containsSub x.data (strLower name).data)
    · simp [h1, h2]
    · by_cases h3 : ["animal", "dog", "cat", "bird"].any
          (fun x => containsSub x.data (strLower name).data)
      · simp [h1, h2, h3]
      · simp [h1, h2, h3]

theorem attach_fst_mem {db : DB} {o k : String} {items : List Item}
    {st : Option String} {p : Item × Option TicketRow}
    (h : p ∈ attach_tickets db o k items st) : p.1 ∈ items := by
  unfold attach_tickets at h
  simp only [List.mem_filterMap] at h
  obtain ⟨it, hit, hg⟩ := h
  split at hg
  · exact absurd hg (by simp)
  · split at hg
    · exact absurd hg (by simp)
    · simp only [Option.some.injEq] at hg
      subst hg
      exact hit

/-- Whenever `api_list` answers at all, the owner it answers for is the
effective owner computed from the caller's role/user and the query. -/
theorem api_list_ok_owner {fs : FS} {db : DB} {role user : String}
    {ownerQ : Option String} {kind : String}
    {start end_ : Option (Nat × Nat × Nat)} {q cat status : Option String}
    {page limit : Nat} {r : ListResp}
    (h : api_list fs db role user ownerQ kind start end_ q cat status page limit =
      .ok r) :
    r.owner = effectiveOwner role user ownerQ := by
  unfold api_list at h
  split at h
  · exact absurd h (by simp)
  · split at h
    · exact absurd h (by simp)
    · split at h
      · exact absurd h (by simp)
      · simp only [Except.ok.injEq] at h
        subst h
        rfl

/-- C4 amended: in `api_list` a restricted caller's explicitly requested
owner is silently overridden with the caller's own identity — the request
succeeds, no `Forbidden` is raised — and with no owner specified the
effective owner is likewise the caller's identity (for any role).  The
file-serving endpoints' guard `_can_access_owner` does refuse a foreign owner
to a restricted caller. -/
theorem api_list_scope_amended (fs : FS) (db : DB) (role user : String)
    (ownerQ : Option String) (kind : String)
    (start end_ : Option (Nat × Nat × Nat)) (q cat status : Option String)
    (page limit : Nat) (hrole : role ≠ "admin") :
    (∀ r, api_list fs db role user ownerQ kind start end_ q cat status page limit =
      .ok r → r.owner = user) ∧
    (∀ role2 r,
      api_list fs db role2 user none kind start end_ q cat status page limit =
      .ok r → r.owner = user) ∧
    (∀ owner, owner ≠ user → _can_access_owner role user owner = false) := by
  refine ⟨?_, ?_, ?_⟩
  · intro r h
    rw [api_list_ok_owner h]
    unfold effectiveOwner
    rw [if_pos (bne_iff_ne.mpr hrole)]
  · intro role2 r h
    rw [api_list_ok_owner h]
    unfold effectiveOwner
    split <;> rfl
  · intro owner howner
    unfold _can_access_owner
    rw [beq_eq_false_iff_ne.mpr hrole, beq_eq_false_iff_ne.mpr howner]
    rfl

/-- C4 counterexample: restricted caller `cliente1` explicitly requesting
`owner=admin` is not rejected — `api_list` silently substitutes the caller's
own identity and answers success. -/
theorem api_list_silent_override_cex :
    api_list [] dbEmpty "cliente" "cliente1" (some "admin") "capturas"
        none none none none none 1 50 =
      .ok { owner := "cliente1", count := 0, total := 0, page := 1, limit := 50,
            pages := 0, items := [],
            counts := [("PERSONA", 0), ("AUTO", 0), ("ANIMAL", 0), ("OTROS", 0)] } :=
  rfl

/-- Concrete run of `api_list_scope_amended`: the file-endpoint guard refuses
`cliente1` access to owner `admin`. -/
theorem api_list_scope_amended_witness :
    _can_access_owner "cliente" "cliente1" "admin" = false :=
  (api_list_scope_amended [] dbEmpty "cliente" "cliente1" (some "admin") "capturas"
    none none none none none 1 50 (by decide)).2.2 "admin" (by decide)

/-- C7 amended: for inputs passing FastAPI's validation (`kind` in the
pattern, `page ≥ 1`, `1 ≤ limit ≤ 200`), `api_list` succeeds and returns
exactly the slice `[(page-1)·limit, page·limit)` of the full filtered ordered
listing; an out-of-range page yields the empty slice — not an error — with
`total` still the size of the full filtered set; and the per-category counts
are computed over the entire filtered set before pagination, with exactly the
four fixed categories always present. -/
theorem api_list_pagination (fs : FS) (db : DB) (role user : String)
    (ownerQ : Option String) (kind : String)
    (start end_ : Option (Nat × Nat × Nat)) (q cat status : Option String)
    (page limit : Nat) (hkind : kind = "capturas" ∨ kind = "tickets")
    (hpage : 1 ≤ page) (hlim1 : 1 ≤ limit) (hlim2 : limit ≤ 200) :
    ∃ r, api_list fs db role user ownerQ kind start end_ q cat status page limit =
        .ok r ∧
      r.total = (fullListing fs db (effectiveOwner role user ownerQ) kind
        start end_ q cat status).length ∧
      r.items = ((fullListing fs db (effectiveOwner role user ownerQ) kind
        start end_ q cat status).drop ((page - 1) * limit)).take limit ∧
      ((fullListing fs db (effectiveOwner role user ownerQ) kind
        start end_ q cat status).length ≤ (page - 1) * limit → r.items = []) ∧
      r.counts.map Prod.fst = ["PERSONA", "AUTO", "ANIMAL", "OTROS"] ∧
      ∀ c, getCount r.counts c = ((fullListing fs db
        (effectiveOwner role user ownerQ) kind start end_ q cat status).map
        (fun p => p.1.cat)).count c := by
  have hc1 : (kind == "capturas" || kind == "tickets") = true := by
    rcases hkind with rfl | rfl <;> rfl
  have hmain : api_list fs db role user ownerQ kind start end_ q cat status
      page limit = .ok
      { owner := effectiveOwner role user ownerQ,
        count := (((fullListing fs db (effectiveOwner role user ownerQ) kind
        start end_ q cat status).drop ((page - 1) * limit)).take limit).length,
        total := (fullListing fs db (effectiveOwner role user ownerQ) kind
        start end_ q cat status).length,
        page := page, limit := limit,
        pages := ((fullListing fs db (effectiveOwner role user ownerQ) kind
        start end_ q cat status).length + limit - 1) / limit,
        items := ((fullListing fs db (effectiveOwner role user ownerQ) kind
        start end_ q cat status).drop ((page - 1) * limit)).take limit,
        counts := countsOf ((fullListing fs db (effectiveOwner role user ownerQ) kind
        start end_ q cat status).map (fun p => p.1.cat)) } := by
    unfold api_list
    rw [if_neg (by simp [hc1]), if_neg (by omega), if_neg (by omega)]
  refine ⟨_, hmain, rfl, rfl, ?_, ?_, ?_⟩
  · intro h
    show ((fullListing fs db (effectiveOwner role user ownerQ) kind
        start end_ q cat status).drop ((page - 1) * limit)).take limit = []
    rw [List.drop_eq_nil_of_le h]
    exact List.take_nil
  · show (countsOf ((fullListing fs db (effectiveOwner role user ownerQ) kind
        start end_ q cat status).map (fun p => p.1.cat))).map Prod.fst = _
    apply countsOf_keys
    intro c hc
    obtain ⟨p, hp, rfl⟩ := List.mem_map.mp hc
    obtain ⟨e, he, _, _, _, hcat, _⟩ := mem_list_items (attach_fst_mem hp)
    rw [hcat]
    exact category_mem_four _
  · intro c
    show getCount (countsOf ((fullListing fs db (effectiveOwner role user ownerQ) kind
        start end_ q cat status).map (fun p => p.1.cat))) c = _
    exact getCount_countsOf _ c

/-- C7 counterexample: `limit` is not clamped to `[1, 200]` — the FastAPI
bound `le=200` rejects `limit=300` with a validation error instead. -/
theorem api_list_limit_reject_cex :
    api_list [] dbEmpty "admin" "admin" none "capturas" none none none none none
      1 300 = .error .validation := rfl

/-- Concrete run of `api_list_pagination`: a validated request succeeds. -/
theorem api_list_pagination_witness :
    (api_list fsW dbEmpty "admin" "admin" none "capturas" none none none none none
      1 50).isOk = true := by
  obtain ⟨r, hr, -⟩ := api_list_pagination fsW dbEmpty "admin" "admin" none
    "capturas" none none none none none 1 50 (Or.inl rfl) (by decide) (by decide)
    (by decide)
  rw [hr]
  rfl

/-! ## Ticket save: uniqueness, sequence allocation, movement type (C1, C5, C6) -/

theorem latestRow_eq_none : ∀ l : List TicketRow, latestRow l = none ↔ l = [] := by
  intro l
  cases l with
  | nil => simp [latestRow]
  | cons r rs =>
    have hne : latestRow (r :: rs) ≠ none := by
      unfold latestRow
      cases hrs : latestRow rs with
      | none => simp
      | some m =>
        by_cases hle : m.id ≤ r.id
        · simp [hle]
        · simp [hle]
    constructor
    · intro h
      exact absurd h hne
    · intro h
      simp at h

theorem matchesCapture_update (o k d n : String) (f : SaveForm) (tid : Nat)
    (r : TicketRow) :
    matchesCapture o k d n (if r.id = tid then updateFields f r else r) =
      matchesCapture o k d n r := by
  split <;> rfl

theorem corr_update (f : SaveForm) (tid : Nat) (r : TicketRow) :
    (if r.id = tid then updateFields f r else r).n_corr_dia = r.n_corr_dia := by
  split <;> rfl

theorem filter_map_update (p : TicketRow → Bool) (u : TicketRow → TicketRow)
    (hpu : ∀ r, p (u r) = p r) :
    ∀ rows : List TicketRow, (rows.map u).filter p = (rows.filter p).map u := by
  intro rows
  induction rows with
  | nil => rfl
  | cons r t ih =>
    cases hp : p r with
    | true => simp [List.filter_cons, hpu r, hp, ih]
    | false => simp [List.filter_cons, hpu r, hp, ih]

/-- `MAX(n_corr_dia)` over an extended table. -/
theorem maxCorr_append (rows : List TicketRow) (r : TicketRow) (o f : String) :
    maxCorr (rows ++ [r]) o f =
      if r.owner == o && r.fecha == f then max (maxCorr rows o f) r.n_corr_dia
      else maxCorr rows o f := by
  unfold maxCorr
  rw [List.foldl_append]
  rfl

/-- One form-driven save keeps the per-capture record count at most one and
never changes an existing record's sequence number. -/
theorem upsert_form_step (fs : FS) (role user o k d n : String)
    (form : SaveForm) (now_s : String) (db db2 : DB) (tid : Nat)
    (hok : upsertViaForm fs db role user o k d n form now_s = .ok (db2, tid))
    (hle : countCapture db o k d n ≤ 1) :
    countCapture db2 o k d n ≤ 1 ∧
      ∀ s, seqsFor db o k d n = [s] → seqsFor db2 o k d n = [s] := by
  unfold upsertViaForm ticket_save at hok
  split at hok
  · exact absurd hok (by simp)
  · split at hok
    · exact absurd hok (by simp)
    · split at hok
      · exact absurd hok (by simp)
      · split at hok
        · -- ticket_id = some: pre-filled from the existing record; UPDATE path
          rename_i tid2 hmap2
          simp only [Except.ok.injEq, Prod.mk.injEq] at hok
          obtain ⟨hdb, -⟩ := hok
          subst hdb
          constructor
          · show ((db.rows.map _).filter (matchesCapture o k d n)).length ≤ 1
            rw [filter_map_update _ _ (matchesCapture_update o k d n form tid2),
              List.length_map]
            exact hle
          · intro s hs
            show ((db.rows.map _).filter (matchesCapture o k d n)).map
              (fun r => r.n_corr_dia) = [s]
            rw [filter_map_update _ _ (matchesCapture_update o k d n form tid2),
              List.map_map]
            have hcong : List.map ((fun r => r.n_corr_dia) ∘ fun r =>
                if r.id = tid2 then updateFields form r else r)
                (db.rows.filter (matchesCapture o k d n)) =
                List.map (fun r => r.n_corr_dia)
                  (db.rows.filter (matchesCapture o k d n)) :=
              List.map_congr_left (fun r _ => corr_update form tid2 r)
            rw [hcong]
            exact hs
        · -- ticket_id = none: no existing record; INSERT path
          rename_i hmap
          have hgn : get_ticket_for_capture db o k d n = none :=
            Option.map_eq_none'.mp hmap
          have hfilter : db.rows.filter (matchesCapture o k d n) = [] := by
            unfold get_ticket_for_capture at hgn
            exact (latestRow_eq_none _).mp hgn
          simp only [Except.ok.injEq, Prod.mk.injEq] at hok
          obtain ⟨hdb, -⟩ := hok
          subst hdb
          constructor
          · show ((db.rows ++ [_]).filter (matchesCapture o k d n)).length ≤ 1
            rw [List.filter_append, hfilter]
            simp [matchesCapture]
          · intro s hs
            unfold seqsFor at hs
            rw [hfilter] at hs
            exact absurd hs (by simp)

/-- C1 amended: at most one Ticket Record per capture key is maintained by
the form-driven flow — `/ticket/form` pre-fills the existing record's id and
`/ticket/save` then updates in place — so any number of repeated saves keeps
the count at most one and leaves the record's sequence number unchanged.
(`ticket_save` itself keys this decision on the client-supplied `ticket_id`
only; see the counterexample for raw repeated saves with an empty id.) -/
theorem upsert_via_form_unique (fs : FS) (role user o k d n : String)
    (forms : Nat → SaveForm) (nows : Nat → String) :
    ∀ (N : Nat) (db : DB), countCapture db o k d n ≤ 1 →
      countCapture (iterUpsert fs role user o k d n forms nows N db) o k d n ≤ 1 ∧
      ∀ s, seqsFor db o k d n = [s] →
        seqsFor (iterUpsert fs role user o k d n forms nows N db) o k d n = [s] := by
  intro N
  induction N with
  | zero => intro db h; exact ⟨h, fun _ hs => hs⟩
  | succ N ih =>
    intro db h
    cases hstep : upsertViaForm fs db role user o k d n (forms N) (nows N) with
    | error e =>
      have hit : iterUpsert fs role user o k d n forms nows (N + 1) db =
          iterUpsert fs role user o k d n forms nows N db := by
        simp [iterUpsert, hstep]
      rw [hit]
      exact ih db h
    | ok p =>
      obtain ⟨db2, tid⟩ := p
      have hit : iterUpsert fs role user o k d n forms nows (N + 1) db =
          iterUpsert fs role user o k d n forms nows N db2 := by
        simp [iterUpsert, hstep]
      rw [hit]
      obtain ⟨h1, h2⟩ := upsert_form_step fs role user o k d n (forms N) (nows N)
        db db2 tid hstep h
      obtain ⟨ih1, ih2⟩ := ih db2 h1
      exact ⟨ih1, fun s hs => ih2 s (h2 s hs)⟩

/-- C1 counterexample: `ticket_save` decides update-vs-insert solely on the
client-supplied `ticket_id`; two saves for the same capture coordinates that
both arrive with an empty `ticket_id` insert two Ticket Records for that key,
so the count for the key reaches 2. -/
theorem ticket_save_duplicate_cex :
    ((ticket_save fsW dbEmpty "admin" "admin" "m" "capturas" "2024-01-05" "f.jpg"
        formW none "T1").bind (fun p =>
      ticket_save fsW p.1 "admin" "admin" "m" "capturas" "2024-01-05" "f.jpg"
        formW none "T2")).map
      (fun p => countCapture p.1 "m" "capturas" "2024-01-05" "f.jpg") = .ok 2 := rfl

/-- Concrete run of `upsert_via_form_unique`: three form-driven saves leave at
most one record for the capture. -/
theorem upsert_via_form_unique_witness :
    countCapture (iterUpsert fsW "admin" "admin" "m" "capturas" "2024-01-05"
      "f.jpg" (fun _ => formW) (fun _ => "T") 3 dbEmpty)
      "m" "capturas" "2024-01-05" "f.jpg" ≤ 1 :=
  (upsert_via_form_unique fsW "admin" "admin" "m" "capturas" "2024-01-05" "f.jpg"
    (fun _ => formW) (fun _ => "T") 3 dbEmpty (by decide)).1

/-- C5 amended: on first saves (`ticket_id` empty) the ticket's `fecha` is the
capture file's modification date (not the Day Bucket name), the allocated
sequence number is `1 + max(n_corr_dia for (owner, fecha), default 0)`, and a
second distinct capture first-saved with the same modification date receives
the next number — distinct and consecutive. -/
theorem ticket_seq_allocation (fs : FS) (db : DB) (role user o k : String)
    (d1 n1 d2 n2 : String) (f1 f2 : SaveForm) (t1 t2 : String) (e1 e2 : FSFile)
    (h1 : findFile fs (secure_name o) k (secure_name d1) (secure_name n1) = some e1)
    (h2 : findFile fs (secure_name o) k (secure_name d2) (secure_name n2) = some e2)
    (hdate : e2.mtimeDate = e1.mtimeDate)
    (hacc : _can_access_owner role user o = true)
    (hk : k = "capturas" ∨ k = "tickets") :
    ((ticket_save fs db role user o k d1 n1 f1 none t1).bind (fun p =>
       ticket_save fs p.1 role user o k d2 n2 f2 none t2)).map
      (fun p => p.1.rows.map (fun r => (r.fecha, r.n_corr_dia))) =
    .ok (db.rows.map (fun r => (r.fecha, r.n_corr_dia)) ++
      [(e1.mtimeDate, maxCorr db.rows o e1.mtimeDate + 1),
       (e1.mtimeDate, maxCorr db.rows o e1.mtimeDate + 2)]) := by
  have hne1 : ¬((!(_can_access_owner role user o)) = true) := by simp [hacc]
  have hne2 : ¬((!(k == "capturas" || k == "tickets")) = true) := by
    rcases hk with rfl | rfl <;> simp
  unfold ticket_save
  rw [if_neg hne1, if_neg hne2, h1]
  simp only [Except.bind]
  rw [if_neg hne1, if_neg hne2, h2]
  simp only [Except.map, hdate, maxCorr_append, List.map_append, List.map_cons,
    List.map_nil, List.append_assoc]
  simp [Nat.max_eq_right (Nat.le_succ (maxCorr db.rows o e1.mtimeDate))]

/-- C5 counterexample: the first save for a capture whose bucket name and
modification date differ stores the modification date, not the bucket name,
as the ticket's calendar date. -/
theorem ticket_fecha_from_mtime_cex :
    (ticket_save fsW dbEmpty "admin" "admin" "m" "capturas" "2024-01-05" "f.jpg"
        formW none "T1").map
      (fun p => p.1.rows.map (fun r => (r.captura_day, r.fecha))) =
      .ok [("2024-01-05", "2024-01-06")] ∧
    ("2024-01-06" : String) ≠ "2024-01-05" :=
  ⟨rfl, by decide⟩

/-- Concrete run of `ticket_seq_allocation`: two first-saved captures on the
same modification date get sequence numbers 1 and 2. -/
theorem ticket_seq_allocation_witness :
    ((ticket_save fsW2 dbEmpty "admin" "admin" "m" "capturas" "2024-01-05" "f.jpg"
        formW none "T1").bind (fun p =>
      ticket_save fsW2 p.1 "admin" "admin" "m" "capturas" "2024-01-05" "g.jpg"
        formW none "T2")).map
      (fun p => p.1.rows.map (fun r => (r.fecha, r.n_corr_dia))) =
    .ok [("2024-01-06", 1), ("2024-01-06", 2)] := by
  have h := ticket_seq_allocation fsW2 dbEmpty "admin" "admin" "m" "capturas"
    "2024-01-05" "f.jpg" "2024-01-05" "g.jpg" formW formW "T1" "T2"
    { owner := "m", kind := "capturas", day := "2024-01-05", name := "f.jpg",
      mtimeDate := "2024-01-06", mtimeTime := "10:00:00" }
    { owner := "m", kind := "capturas", day := "2024-01-05", name := "g.jpg",
      mtimeDate := "2024-01-06", mtimeTime := "11:00:00" }
    rfl rfl rfl rfl (Or.inl rfl)
  exact h

/-- C6 amended: `ticket_save` performs no server-side validation or
normalization of the movement type: every value the form carries is accepted
and stored verbatim (the `ENTRADA`/`SALIDA` restriction exists only in the
HTML form's select element). -/
theorem tipo_mov_stored_verbatim (fs : FS) (db : DB) (role user o k d n : String)
    (form : SaveForm) (t : String) (e : FSFile)
    (hfind : findFile fs (secure_name o) k (secure_name d) (secure_name n) = some e)
    (hacc : _can_access_owner role user o = true)
    (hk : k = "capturas" ∨ k = "tickets") :
    (ticket_save fs db role user o k d n form none t).map
      (fun p => p.1.rows.map (fun r => r.tipo_mov)) =
      .ok (db.rows.map (fun r => r.tipo_mov) ++ [form.tipo_mov]) := by
  have hne1 : ¬((!(_can_access_owner role user o)) = true) := by simp [hacc]
  have hne2 : ¬((!(k == "capturas" || k == "tickets")) = true) := by
    rcases hk with rfl | rfl <;> simp
  unfold ticket_save
  rw [if_neg hne1, if_neg hne2, hfind]
  simp [Except.map, List.map_append]

/-- C6 counterexample: a movement type outside `ENTRADA`/`SALIDA` is accepted
by the save and stored verbatim (not rejected, not upper-cased). -/
theorem tipo_mov_unvalidated_cex :
    (ticket_save fsW dbEmpty "admin" "admin" "m" "capturas" "2024-01-05" "f.jpg"
        formBad none "T1").map (fun p => p.1.rows.map (fun r => r.tipo_mov)) =
      .ok ["cualquiera"] := rfl

/-- Concrete run of `tipo_mov_stored_verbatim` with a well-formed form. -/
theorem tipo_mov_stored_verbatim_witness :
    (ticket_save fsW dbEmpty "admin" "admin" "m" "capturas" "2024-01-05" "f.jpg"
        formW none "T9").map (fun p => p.1.rows.map (fun r => r.tipo_mov)) =
      .ok ["ENTRADA"] := by
  have h := tipo_mov_stored_verbatim fsW dbEmpty "admin" "admin" "m" "capturas"
    "2024-01-05" "f.jpg" formW "T9"
    { owner := "m", kind := "capturas", day := "2024-01-05", name := "f.jpg",
      mtimeDate := "2024-01-06", mtimeTime := "10:00:00" }
    rfl rfl (Or.inl rfl)
  exact h

end Orbet
